import Mathlib

/-!
Verification of the IRT (Item Response Theory) adaptive-evaluation core of the
repository, shallowly embedded from:

  * src/backend/src/core/fluid_evaluation.py   (class FluidEvaluator)
  * src/benchmarking/ocr_irt_benchmark.py      (class OCRIRTBenchmark)

Python floats are modelled by real numbers.  The only floating-point behaviour
a claim depends on is the overflow/underflow of CPython `math.exp`, which is
modelled explicitly by `pyexp` below; everywhere else the idealised real-valued
semantics is used.
-/

namespace FluidEval

/-- One expected entity of a test item (the dicts `{"type": ..., "name": ...}`
in the source). -/
structure Entity where
  etype : String
  ename : String

/-- `IRTItem` dataclass from fluid_evaluation.py. -/
structure IRTItem where
  id : String
  text : String
  expected_entities : List Entity
  difficulty : ℝ
  discrimination : ℝ
  mislabeled_probability : ℝ

/-- `ExtractionAbility` dataclass from fluid_evaluation.py. -/
structure ExtractionAbility where
  method : String
  theta : ℝ
  standard_error : ℝ
  num_items_tested : ℕ

/-- The threshold above which CPython `math.exp` raises `OverflowError`
(log of the largest double). -/
def EXP_OVERFLOW : ℝ := 709.782712893384

/-- The threshold below which CPython `math.exp` underflows and returns
exactly `0.0`. -/
def EXP_UNDERFLOW : ℝ := -745.133219101941

/-- Model of CPython `math.exp` on doubles: raises `OverflowError` above
`EXP_OVERFLOW`, returns exactly `0.0` below `EXP_UNDERFLOW`, and is treated as
the exact real exponential in between (rounding inside the representable range
is not modelled). -/
noncomputable def pyexp (x : ℝ) : Except Unit ℝ :=
  if EXP_OVERFLOW < x then Except.error ()
  else if x < EXP_UNDERFLOW then Except.ok 0
  else Except.ok (Real.exp x)

/-- `FluidEvaluator.probability_correct`, idealised real semantics:
`1 / (1 + exp(-discrimination * (ability - difficulty)))`. -/
noncomputable def probability_correct (ability difficulty discrimination : ℝ) : ℝ :=
  1 / (1 + Real.exp (-discrimination * (ability - difficulty)))

/-- `FluidEvaluator.probability_correct` with the `math.exp`
overflow/underflow behaviour made explicit (the source computes
`exponent = -discrimination * (ability - difficulty)` and calls `math.exp`
with no clamping and no exception handler). -/
noncomputable def probability_correct_checked (ability difficulty discrimination : ℝ) :
    Except Unit ℝ :=
  Except.map (fun e => 1 / (1 + e)) (pyexp (-discrimination * (ability - difficulty)))

/-- `OCRIRTBenchmark.probability_correct`: same logistic formula, but the
`OverflowError` is caught and turned into exactly `1.0` when
`ability > difficulty` and exactly `0.0` otherwise. -/
noncomputable def bench_probability_correct (ability difficulty discrimination : ℝ) : ℝ :=
  match pyexp (-(discrimination * (ability - difficulty))) with
  | Except.ok e => 1 / (1 + e)
  | Except.error _ => if difficulty < ability then 1 else 0

/-- The gradient accumulation loop of `FluidEvaluator.estimate_ability`:
for each `(item, correct)` response, add `a * (1 - p)` when correct and
subtract `a * p` when incorrect (the source accumulates gradient and hessian
in one `for` loop; they are embedded as two folds over the same list). -/
noncomputable def gradientSum (theta : ℝ) (responses : List (IRTItem × Bool)) : ℝ :=
  responses.foldl (fun g r =>
    if r.2 then
      g + r.1.discrimination * (1 - probability_correct theta r.1.difficulty r.1.discrimination)
    else
      g - r.1.discrimination * probability_correct theta r.1.difficulty r.1.discrimination) 0

/-- The hessian accumulation loop of `FluidEvaluator.estimate_ability`:
subtract `a^2 * p * (1 - p)` for every response. -/
noncomputable def hessianSum (theta : ℝ) (responses : List (IRTItem × Bool)) : ℝ :=
  responses.foldl (fun h r =>
    h - r.1.discrimination ^ 2 * probability_correct theta r.1.difficulty r.1.discrimination
      * (1 - probability_correct theta r.1.difficulty r.1.discrimination)) 0

/-- Gradient including the `method == "map"` Normal(0,1) prior term
(`gradient -= theta`). -/
noncomputable def gradientAt (method : String) (responses : List (IRTItem × Bool)) (theta : ℝ) : ℝ :=
  gradientSum theta responses - (if method = "map" then theta else 0)

/-- Hessian including the `method == "map"` prior term (`hessian -= 1.0`). -/
noncomputable def hessianAt (method : String) (responses : List (IRTItem × Bool)) (theta : ℝ) : ℝ :=
  hessianSum theta responses - (if method = "map" then 1 else 0)

/-- The Newton-Raphson loop of `FluidEvaluator.estimate_ability`
(`for iteration in range(20)`), fuel-indexed: the update is applied only when
`abs(hessian) > 1e-6`, and the loop breaks (keeping the updated value) when
`abs(theta_new - theta) < 1e-4`. -/
noncomputable def nrLoop (method : String) (responses : List (IRTItem × Bool)) :
    ℕ → ℝ → ℝ
  | 0, theta => theta
  | n + 1, theta =>
    if 1e-6 < |hessianAt method responses theta| then
      let thetaNew := theta - gradientAt method responses theta / hessianAt method responses theta
      if |thetaNew - theta| < 1e-4 then thetaNew
      else nrLoop method responses n thetaNew
    else nrLoop method responses n theta

/-- The Fisher information `sum(a**2 * p * (1-p) for item, _ in responses)`
computed at the end of `FluidEvaluator.estimate_ability`. -/
noncomputable def fisherInfo (theta : ℝ) (responses : List (IRTItem × Bool)) : ℝ :=
  (responses.map (fun r =>
    r.1.discrimination ^ 2 * probability_correct theta r.1.difficulty r.1.discrimination
      * (1 - probability_correct theta r.1.difficulty r.1.discrimination))).sum

/-- `standard_error = 1.0 / math.sqrt(fisher_info) if fisher_info > 0 else 1.0`. -/
noncomputable def fluidStandardError (theta : ℝ) (responses : List (IRTItem × Bool)) : ℝ :=
  if 0 < fisherInfo theta responses then 1 / Real.sqrt (fisherInfo theta responses) else 1

/-- `FluidEvaluator.estimate_ability`.  The empty-response case returns
`ExtractionAbility(method="unknown", theta=0.0)` with the dataclass defaults
(standard error 1.0, zero items).  Otherwise theta is the Newton-Raphson
result from start 0 with at most 20 iterations, and the `method` field is
`responses[0][0].id.split("-")[0]`. -/
noncomputable def estimate_ability (responses : List (IRTItem × Bool)) (method : String) :
    ExtractionAbility :=
  match responses with
  | [] => { method := "unknown", theta := 0, standard_error := 1, num_items_tested := 0 }
  | r0 :: _ =>
    let theta := nrLoop method responses 20 0
    { method := (r0.1.id.splitOn "-").headD ""
      theta := theta
      standard_error := fluidStandardError theta responses
      num_items_tested := responses.length }

/-- Fisher information of one item at an ability level,
`a**2 * p * (1-p)`, as computed inside `FluidEvaluator.select_next_item`. -/
noncomputable def itemInformation (theta : ℝ) (item : IRTItem) : ℝ :=
  item.discrimination ^ 2 * probability_correct theta item.difficulty item.discrimination
    * (1 - probability_correct theta item.difficulty item.discrimination)

/-- First maximiser of `f`: starting from `a`, replace the current best only
on strictly larger `f`-value.  This is the head of a stable descending sort
by `f`. -/
noncomputable def maxInfoFold {α : Type} (f : α → ℝ) (a : α) (l : List α) : α :=
  l.foldl (fun best i => if f best < f i then i else best) a

/-- `FluidEvaluator.select_next_item`: filter out administered item ids, then
take the head of the list sorted by information in descending order
(`item_information.sort(key=lambda x: x[1], reverse=True)` followed by
`[0]`).  Python `list.sort` is stable, so that head is the first item in pool
order attaining the maximum information, which is what `maxInfoFold`
computes. -/
noncomputable def select_next_item (pool : List IRTItem) (current_ability : ExtractionAbility)
    (administered_items : List String) : Option IRTItem :=
  match pool.filter (fun it => decide (it.id ∉ administered_items)) with
  | [] => none
  | it :: rest => some (maxInfoFold (itemInformation current_ability.theta) it rest)

/-- The result dict returned by `FluidEvaluator.fluid_benchmarking`. -/
structure FluidResult where
  method : String
  final_ability : ℝ
  standard_error : ℝ
  items_administered : ℕ
  items_correct : ℕ
  accuracy : ℝ
  administered_items : List String
  ability_estimate : ExtractionAbility

/-- The keys of the dict literal returned by `FluidEvaluator.fluid_benchmarking`
(fluid_evaluation.py lines 231-240), in source order. -/
def fluidResultKeys : List String :=
  ["method", "final_ability", "standard_error", "items_administered",
   "items_correct", "accuracy", "administered_items", "ability_estimate"]

/-- The keys of the dict literal returned by `OCRIRTBenchmark.run_benchmark`
(ocr_irt_benchmark.py), in source order.  Unlike the fluid result, it carries
a `confidence_interval` entry equal to `(ability - 1.96*se, ability + 1.96*se)`. -/
def benchResultKeys : List String :=
  ["ability", "standard_error", "accuracy", "confidence_interval",
   "interpretation", "responses", "timestamp"]

/-- The `for i in range(n_max)` loop of `FluidEvaluator.fluid_benchmarking`.
The external `await self._test_extraction(...)` call is abstracted as an
`evaluate` oracle returning `Except String Bool`; the source wraps it in no
`try`/`except`, so a raised exception (`Except.error`) short-circuits the whole
run, exactly as an uncaught Python exception propagates out of the loop.
Arguments of the recursion: remaining fuel (`n_max - i`), the loop index `i`
(used by the early-stopping test `i >= 10`), the current ability, the response
list and the administered-id list. -/
noncomputable def fluidLoop (pool : List IRTItem) (evaluate : IRTItem → Except String Bool)
    (estimation_method : String) :
    ℕ → ℕ → ExtractionAbility → List (IRTItem × Bool) → List String →
    Except String (List (IRTItem × Bool) × List String × ExtractionAbility)
  | 0, _, ability, responses, administered => Except.ok (responses, administered, ability)
  | fuel + 1, i, ability, responses, administered =>
    match select_next_item pool ability administered with
    | none => Except.ok (responses, administered, ability)
    | some item =>
      match evaluate item with
      | Except.error e => Except.error e
      | Except.ok correct =>
        let responses2 := responses ++ [(item, correct)]
        let administered2 := administered ++ [item.id]
        let ability2 := estimate_ability responses2 estimation_method
        if ability2.standard_error < 0.3 ∧ 10 ≤ i then
          Except.ok (responses2, administered2, ability2)
        else
          fluidLoop pool evaluate estimation_method fuel (i + 1) ability2 responses2 administered2

/-- Fresh ability record created at the start of
`FluidEvaluator.fluid_benchmarking`:
`ExtractionAbility(method=extraction_method, theta=start_ability)` with the
dataclass defaults (standard error 1.0, zero items tested). -/
def initAbility (extraction_method : String) (start_ability : ℝ) : ExtractionAbility :=
  { method := extraction_method, theta := start_ability,
    standard_error := 1, num_items_tested := 0 }

/-- The result dict literal of `FluidEvaluator.fluid_benchmarking`
(fluid_evaluation.py lines 231-240) built from the loop state:
responses, administered ids and final ability.  `accuracy` is
`items_correct / len(responses) if responses else 0`; the dict has no
confidence-interval entry. -/
noncomputable def packageResult (extraction_method : String)
    (res : List (IRTItem × Bool) × List String × ExtractionAbility) : FluidResult :=
  { method := extraction_method
    final_ability := res.2.2.theta
    standard_error := res.2.2.standard_error
    items_administered := res.2.1.length
    items_correct := (res.1.filter (fun r => r.2)).length
    accuracy := match res.1 with
      | [] => 0
      | _ :: _ => ((res.1.filter (fun r => r.2)).length : ℝ) / res.1.length
    administered_items := res.2.1
    ability_estimate := res.2.2 }

/-- `FluidEvaluator.fluid_benchmarking`: runs the adaptive loop from a fresh
`ExtractionAbility(method=extraction_method, theta=start_ability)` (dataclass
default standard error 1.0) and packages the result dict. -/
noncomputable def fluid_benchmarking (pool : List IRTItem) (evaluate : IRTItem → Except String Bool)
    (extraction_method : String) (start_ability : ℝ) (n_max : ℕ) (estimation_method : String) :
    Except String FluidResult :=
  Except.map (packageResult extraction_method)
    (fluidLoop pool evaluate estimation_method n_max 0
      (initAbility extraction_method start_ability) [] [])

end FluidEval

namespace BenchIRT

open FluidEval

/-- An OCR benchmark item: the `id` plus its `item["irt_params"]`
(`difficulty` and `discrimination`). -/
structure BenchItem where
  id : String
  difficulty : ℝ
  discrimination : ℝ

/-- A standard-error value as produced by `OCRIRTBenchmark.estimate_ability`:
either a finite float or `float("inf")`. -/
inductive SEValue where
  | fin : ℝ → SEValue
  | infinite : SEValue

/-- The gradient of `OCRIRTBenchmark.estimate_ability` at an ability value:
`sum of a * (correct - p)` plus the prior term
`-(ability - 0.0) / ability_prior_std**2` with `ability_prior_std = 1.0`. -/
noncomputable def benchGradient (responses : List (BenchItem × Bool)) (ability : ℝ) : ℝ :=
  (responses.map (fun r =>
    r.1.discrimination *
      ((if r.2 then 1 else 0) -
        bench_probability_correct ability r.1.difficulty r.1.discrimination))).sum
    - (ability - 0) / 1

/-- The hessian of `OCRIRTBenchmark.estimate_ability` at an ability value:
`sum of -a^2 * p * (1-p)` plus the prior term `-1.0 / ability_prior_std**2`. -/
noncomputable def benchHessian (responses : List (BenchItem × Bool)) (ability : ℝ) : ℝ :=
  (responses.map (fun r =>
    -(r.1.discrimination * r.1.discrimination *
      bench_probability_correct ability r.1.difficulty r.1.discrimination *
      (1 - bench_probability_correct ability r.1.difficulty r.1.discrimination)))).sum
    - 1 / 1

/-- The Newton-Raphson loop of `OCRIRTBenchmark.estimate_ability`
(`for iteration in range(IRT_CONFIG["max_iterations"])` with
`max_iterations = 50`, `convergence_threshold = 0.01`).  It returns the final
ability together with the hessian computed in the last executed iteration,
because the code computes `information = -hessian` AFTER the loop from the
still-live loop variable (so the information is evaluated at the ability from
just before the final update, not at the final ability).  The second argument
threads that last hessian; the initial value passed for it is never returned
since the loop body always runs at least once (`max_iterations = 50 > 0`). -/
noncomputable def benchLoop (responses : List (BenchItem × Bool)) :
    ℕ → ℝ → ℝ → ℝ × ℝ
  | 0, ability, hLast => (ability, hLast)
  | n + 1, ability, _hLast =>
    let h := benchHessian responses ability
    if h ≠ 0 then
      let update := -benchGradient responses ability / h
      if |update| < 0.01 then (ability + update, h)
      else benchLoop responses n (ability + update) h
    else benchLoop responses n ability h

/-- `OCRIRTBenchmark.estimate_ability`: MAP Newton-Raphson from
`initial_ability = 0.0`, then `information = -hessian` and
`standard_error = 1.0 / math.sqrt(information) if information > 0 else
float("inf")`. -/
noncomputable def benchEstimate (responses : List (BenchItem × Bool)) : ℝ × SEValue :=
  let res := benchLoop responses 50 0 0
  let information := -res.2
  (res.1, if 0 < information then SEValue.fin (1 / Real.sqrt information) else SEValue.infinite)

/-- The Fisher-information part of the benchmark hessian:
`sum of a * a * p * (1 - p)` over the responses. -/
noncomputable def benchFisher (responses : List (BenchItem × Bool)) (ability : ℝ) : ℝ :=
  (responses.map (fun r =>
    r.1.discrimination * r.1.discrimination *
      bench_probability_correct ability r.1.difficulty r.1.discrimination *
      (1 - bench_probability_correct ability r.1.difficulty r.1.discrimination))).sum

end BenchIRT

namespace FluidEval

/-- `self.abilities.get(method, ExtractionAbility(method=method))`: look the
method up in the (insertion-ordered) abilities dict, falling back to a fresh
default ability (theta 0, standard error 1, zero items). -/
def getAbility (abilities : List (String × ExtractionAbility)) (method : String) :
    ExtractionAbility :=
  ((abilities.lookup method).getD
    { method := method, theta := 0, standard_error := 1, num_items_tested := 0 })

/-- The response-collection loop of `FluidEvaluator.identify_mislabeled_items`:
for each `(method, responses)` entry of the dict (in insertion order) and each
`(response_item, correct)` with `response_item.id == item.id`, collect
`(ability.theta, correct)`. -/
def itemResponses (responses_across_models : List (String × List (IRTItem × Bool)))
    (abilities : List (String × ExtractionAbility)) (itemId : String) :
    List (ℝ × Bool) :=
  responses_across_models.flatMap (fun mr =>
    (mr.2.filter (fun rc => decide (rc.1.id = itemId))).map
      (fun rc => ((getAbility abilities mr.1).theta, rc.2)))

/-- The discrepancy of one item:
`sum(|expected - actual| for ...) / len(item_responses)` where
`expected = probability_correct(ability, item.difficulty, item.discrimination)`
and `actual = 1.0 if correct else 0.0`. -/
noncomputable def discrepancyOf (item : IRTItem) (rs : List (ℝ × Bool)) : ℝ :=
  (rs.map (fun tc =>
    |probability_correct tc.1 item.difficulty item.discrimination -
      (if tc.2 then 1 else 0)|)).sum / rs.length

/-- Descending order on `mislabeled_probability`, the sort key of
`mislabeled.sort(key=lambda x: x.mislabeled_probability, reverse=True)`. -/
def discGE (x y : IRTItem) : Prop :=
  y.mislabeled_probability ≤ x.mislabeled_probability

instance : IsTotal IRTItem discGE :=
  ⟨fun a b => le_total b.mislabeled_probability a.mislabeled_probability⟩

instance : IsTrans IRTItem discGE :=
  ⟨fun _ _ _ hab hbc => le_trans hbc hab⟩

noncomputable instance : DecidableRel discGE :=
  fun x y =>
    inferInstanceAs (Decidable (y.mislabeled_probability ≤ x.mislabeled_probability))

/-- `FluidEvaluator.identify_mislabeled_items`: for each pool item (in order)
with at least one matching response, compute the discrepancy; items with
`discrepancy > threshold` get `mislabeled_probability` set to the discrepancy
and are collected, then the collected list is sorted in descending order of
`mislabeled_probability`.  (Python `list.sort` is stable; `insertionSort` may
order equal-discrepancy items differently, which no specified property
observes.) -/
noncomputable def identify_mislabeled_items (pool : List IRTItem)
    (abilities : List (String × ExtractionAbility))
    (responses_across_models : List (String × List (IRTItem × Bool)))
    (threshold : ℝ) : List IRTItem :=
  (pool.filterMap (fun item =>
    match itemResponses responses_across_models abilities item.id with
    | [] => none
    | p :: ps =>
      let d := discrepancyOf item (p :: ps)
      if threshold < d then
        some { item with mislabeled_probability := d }
      else none)).insertionSort discGE

/-- The gradient formula exactly as the specification words it:
`gradient = sum of a_i * (correct_i - p_i)`, minus `theta` in map mode. -/
noncomputable def specGradient (method : String) (responses : List (IRTItem × Bool))
    (theta : ℝ) : ℝ :=
  (responses.map (fun r =>
    r.1.discrimination *
      ((if r.2 then 1 else 0) -
        probability_correct theta r.1.difficulty r.1.discrimination))).sum
    - (if method = "map" then theta else 0)

/-- The hessian formula exactly as the specification words it:
`hessian = -(sum of a_i^2 * p_i * (1 - p_i))`, minus 1 in map mode. -/
noncomputable def specHessian (method : String) (responses : List (IRTItem × Bool))
    (theta : ℝ) : ℝ :=
  -fisherInfo theta responses - (if method = "map" then 1 else 0)

/-- The standard error as the specification words it: `1/sqrt(Fisher)` and,
whenever the Fisher information is `<= 0`, positive infinity (stated over the
extended reals so that infinity is expressible). -/
noncomputable def claimedStandardError (fisher : ℝ) : EReal :=
  if fisher ≤ 0 then (⊤ : EReal) else (((1 / Real.sqrt fisher) : ℝ) : EReal)

/-- Concrete pool item with difficulty 0 and discrimination 1. -/
noncomputable def itemA : IRTItem :=
  { id := "a-1", text := "", expected_entities := [],
    difficulty := 0, discrimination := 1, mislabeled_probability := 0 }

/-- Concrete pool item with difficulty 0 and discrimination 2. -/
noncomputable def itemB : IRTItem :=
  { id := "b-1", text := "", expected_entities := [],
    difficulty := 0, discrimination := 2, mislabeled_probability := 0 }

/-- Concrete pool item with difficulty -2 and discrimination 0. -/
noncomputable def itemC : IRTItem :=
  { id := "c-1", text := "", expected_entities := [],
    difficulty := -2, discrimination := 0, mislabeled_probability := 0 }

/-- Concrete pool item with difficulty 0 and discrimination 2. -/
noncomputable def itemD : IRTItem :=
  { id := "d-1", text := "", expected_entities := [],
    difficulty := 0, discrimination := 2, mislabeled_probability := 0 }

/-- Concrete item with discrimination 0 (the source accepts it; it contributes
zero Fisher information). -/
noncomputable def zeroDiscItem : IRTItem :=
  { id := "easy-1", text := "", expected_entities := [],
    difficulty := -1, discrimination := 0, mislabeled_probability := 0 }

/-- Concrete mislabel-detector pool item (difficulty 0, discrimination 1). -/
noncomputable def itemM : IRTItem :=
  { id := "m-1", text := "", expected_entities := [],
    difficulty := 0, discrimination := 1, mislabeled_probability := 0 }

/-- Concrete mislabel-detector pool item that receives no responses. -/
noncomputable def itemN : IRTItem :=
  { id := "n-1", text := "", expected_entities := [],
    difficulty := 1, discrimination := 1, mislabeled_probability := 0 }

/-- A concrete ability record at theta 0. -/
noncomputable def abilityZero : ExtractionAbility :=
  { method := "kg", theta := 0, standard_error := 1, num_items_tested := 0 }

end FluidEval

namespace FluidEval

lemma probability_correct_pos (theta b a : ℝ) : 0 < probability_correct theta b a := by
  unfold probability_correct
  have h := Real.exp_pos (-a * (theta - b))
  positivity

lemma probability_correct_lt_one (theta b a : ℝ) : probability_correct theta b a < 1 := by
  unfold probability_correct
  have h := Real.exp_pos (-a * (theta - b))
  rw [div_lt_one (by linarith)]
  linarith

lemma probability_correct_of_zero_exponent {theta b a : ℝ} (h : -a * (theta - b) = 0) :
    probability_correct theta b a = 1 / 2 := by
  unfold probability_correct
  rw [h, Real.exp_zero]
  norm_num

lemma fisherInfo_nonneg (theta : ℝ) (responses : List (IRTItem × Bool)) :
    0 ≤ fisherInfo theta responses := by
  refine List.sum_nonneg ?_
  intro x hx
  rw [List.mem_map] at hx
  obtain ⟨r, _, rfl⟩ := hx
  have h1 := probability_correct_pos theta r.1.difficulty r.1.discrimination
  have h2 := probability_correct_lt_one theta r.1.difficulty r.1.discrimination
  have h3 : (0:ℝ) ≤ r.1.discrimination ^ 2 := sq_nonneg _
  exact mul_nonneg (mul_nonneg h3 h1.le) (by linarith)

lemma sum_map_neg {α : Type} (f : α → ℝ) (l : List α) :
    (l.map (fun x => -(f x))).sum = -(l.map f).sum := by
  induction l with
  | nil => simp
  | cons x t ih => simp [ih]; ring

lemma foldl_add_shift {α : Type} (f : α → ℝ) :
    ∀ (l : List α) (c : ℝ), l.foldl (fun g x => g + f x) c = c + (l.map f).sum
  | [], c => by simp
  | x :: t, c => by
    rw [List.foldl_cons, foldl_add_shift f t (c + f x)]
    simp
    ring

lemma gradientSum_eq_sum (theta : ℝ) (responses : List (IRTItem × Bool)) :
    gradientSum theta responses =
      (responses.map (fun r =>
        r.1.discrimination *
          ((if r.2 then 1 else 0) -
            probability_correct theta r.1.difficulty r.1.discrimination))).sum := by
  unfold gradientSum
  have hfun : (fun (g : ℝ) (r : IRTItem × Bool) =>
      if r.2 then
        g + r.1.discrimination * (1 - probability_correct theta r.1.difficulty r.1.discrimination)
      else
        g - r.1.discrimination * probability_correct theta r.1.difficulty r.1.discrimination) =
      (fun (g : ℝ) (r : IRTItem × Bool) => g +
        r.1.discrimination *
          ((if r.2 then 1 else 0) -
            probability_correct theta r.1.difficulty r.1.discrimination)) := by
    funext g r
    by_cases h : r.2 <;> simp [h] <;> ring
  rw [hfun, foldl_add_shift, zero_add]

lemma hessianSum_eq_neg_fisher (theta : ℝ) (responses : List (IRTItem × Bool)) :
    hessianSum theta responses = -fisherInfo theta responses := by
  unfold hessianSum fisherInfo
  have hfun : (fun (h : ℝ) (r : IRTItem × Bool) =>
      h - r.1.discrimination ^ 2 * probability_correct theta r.1.difficulty r.1.discrimination
        * (1 - probability_correct theta r.1.difficulty r.1.discrimination)) =
      (fun (h : ℝ) (r : IRTItem × Bool) => h +
        (fun r : IRTItem × Bool =>
          -(r.1.discrimination ^ 2 * probability_correct theta r.1.difficulty r.1.discrimination
            * (1 - probability_correct theta r.1.difficulty r.1.discrimination))) r) := by
    funext h r
    ring
  rw [hfun, foldl_add_shift, zero_add, sum_map_neg]

lemma maxInfoFold_cons {α : Type} (f : α → ℝ) (a b : α) (t : List α) :
    maxInfoFold f a (b :: t) = maxInfoFold f (if f a < f b then b else a) t := rfl

/-- The first-maximiser fold splits its input around its result: everything
strictly before the result has strictly smaller value, everything after has
smaller-or-equal value. -/
lemma maxInfoFold_decomp {α : Type} (f : α → ℝ) (l : List α) :
    ∀ a : α, ∃ l1 l2,
      a :: l = l1 ++ maxInfoFold f a l :: l2 ∧
      (∀ x ∈ l1, f x < f (maxInfoFold f a l)) ∧
      (∀ x ∈ l2, f x ≤ f (maxInfoFold f a l)) := by
  induction l with
  | nil =>
    intro a
    exact ⟨[], [], rfl, by simp, by simp⟩
  | cons b t ih =>
    intro a
    by_cases hab : f a < f b
    · have hfold : maxInfoFold f a (b :: t) = maxInfoFold f b t := by
        rw [maxInfoFold_cons, if_pos hab]
      obtain ⟨l1, l2, hdec, h1, h2⟩ := ih b
      have hhead : f b ≤ f (maxInfoFold f b t) := by
        cases l1 with
        | nil =>
          have hb : b = maxInfoFold f b t := by
            rw [List.nil_append] at hdec
            exact (List.cons.injEq _ _ _ _ ▸ hdec).1
          rw [← hb]
        | cons c l1' =>
          have hbc : b = c := by
            rw [List.cons_append] at hdec
            exact (List.cons.injEq _ _ _ _ ▸ hdec).1
          have hlt := h1 c (List.mem_cons_self c l1')
          rw [← hbc] at hlt
          exact hlt.le
      refine ⟨a :: l1, l2, ?_, ?_, ?_⟩
      · rw [hfold, List.cons_append, ← hdec]
      · intro x hx
        rcases List.mem_cons.mp hx with rfl | hx'
        · exact hfold ▸ lt_of_lt_of_le hab hhead
        · exact hfold ▸ h1 x hx'
      · intro x hx
        exact hfold ▸ h2 x hx
    · have hfold : maxInfoFold f a (b :: t) = maxInfoFold f a t := by
        rw [maxInfoFold_cons, if_neg hab]
      obtain ⟨l1, l2, hdec, h1, h2⟩ := ih a
      cases l1 with
      | nil =>
        rw [List.nil_append] at hdec
        have ha : a = maxInfoFold f a t := (List.cons.injEq _ _ _ _ ▸ hdec).1
        have ht : t = l2 := (List.cons.injEq _ _ _ _ ▸ hdec).2
        refine ⟨[], b :: t, ?_, by simp, ?_⟩
        · rw [hfold, List.nil_append, ← ha]
        · intro x hx
          rcases List.mem_cons.mp hx with rfl | hx'
          · rw [hfold, ← ha]
            exact le_of_not_lt hab
          · rw [hfold]
            exact h2 x (ht ▸ hx')
      | cons c l1' =>
        rw [List.cons_append] at hdec
        have hac : a = c := (List.cons.injEq _ _ _ _ ▸ hdec).1
        have ht : t = l1' ++ maxInfoFold f a t :: l2 := (List.cons.injEq _ _ _ _ ▸ hdec).2
        refine ⟨a :: b :: l1', l2, ?_, ?_, ?_⟩
        · rw [hfold]
          conv_lhs => rw [ht]
          simp
        · intro x hx
          have hfa : f a < f (maxInfoFold f a t) :=
            hac ▸ h1 c (List.mem_cons_self c l1')
          rcases List.mem_cons.mp hx with rfl | hx'
          · exact hfold ▸ hfa
          · rcases List.mem_cons.mp hx' with rfl | hx''
            · exact hfold ▸ lt_of_le_of_lt (le_of_not_lt hab) hfa
            · exact hfold ▸ h1 x (List.mem_cons_of_mem c hx'')
        · intro x hx
          exact hfold ▸ h2 x hx

lemma maxInfoFold_mem {α : Type} (f : α → ℝ) (a : α) (l : List α) :
    maxInfoFold f a l ∈ a :: l := by
  obtain ⟨l1, l2, hdec, -, -⟩ := maxInfoFold_decomp f l a
  rw [hdec]
  exact List.mem_append_right _ (List.mem_cons_self _ _)

lemma maxInfoFold_is_max {α : Type} (f : α → ℝ) (a : α) (l : List α) :
    ∀ x ∈ a :: l, f x ≤ f (maxInfoFold f a l) := by
  obtain ⟨l1, l2, hdec, h1, h2⟩ := maxInfoFold_decomp f l a
  intro x hx
  rw [hdec] at hx
  rcases List.mem_append.mp hx with hx1 | hx2
  · exact (h1 x hx1).le
  · rcases List.mem_cons.mp hx2 with rfl | hx3
    · exact le_refl _
    · exact h2 x hx3

lemma mem_availableFilter {pool : List IRTItem} {administered : List String} {x : IRTItem} :
    x ∈ pool.filter (fun it => decide (it.id ∉ administered)) ↔
      x ∈ pool ∧ x.id ∉ administered := by
  rw [List.mem_filter]
  simp

/-- A selected item is drawn from the pool and was not yet administered. -/
lemma select_next_item_mem {pool : List IRTItem} {ab : ExtractionAbility}
    {adm : List String} {it : IRTItem}
    (h : select_next_item pool ab adm = some it) : it ∈ pool ∧ it.id ∉ adm := by
  unfold select_next_item at h
  revert h
  cases hf : pool.filter (fun i => decide (i.id ∉ adm)) with
  | nil => intro h; cases h
  | cons x t =>
    intro h
    have hit : it = maxInfoFold (itemInformation ab.theta) x t := by
      cases h
      rfl
    have hmem : it ∈ x :: t := hit ▸ maxInfoFold_mem _ x t
    rw [← hf] at hmem
    exact mem_availableFilter.mp hmem

/-- Whatever the adaptive loop returns, its administered-id list extends the
one it started from. -/
lemma fluidLoop_admin_extends (pool : List IRTItem) (ev : IRTItem → Except String Bool)
    (em : String) :
    ∀ (fuel i : ℕ) (ab : ExtractionAbility) (resp : List (IRTItem × Bool)) (adm : List String)
      (res : List (IRTItem × Bool) × List String × ExtractionAbility),
      fluidLoop pool ev em fuel i ab resp adm = Except.ok res →
      ∃ s, res.2.1 = adm ++ s := by
  intro fuel
  induction fuel with
  | zero =>
    intro i ab resp adm res h
    simp only [fluidLoop] at h
    cases h
    exact ⟨[], by simp⟩
  | succ fuel ih =>
    intro i ab resp adm res h
    simp only [fluidLoop] at h
    cases hsel : select_next_item pool ab adm with
    | none =>
      simp only [hsel] at h
      cases h
      exact ⟨[], by simp⟩
    | some item =>
      simp only [hsel] at h
      cases hev : ev item with
      | error e => simp only [hev] at h; cases h
      | ok c =>
        simp only [hev] at h
        by_cases hcond :
            (estimate_ability (resp ++ [(item, c)]) em).standard_error < 0.3 ∧ 10 ≤ i
        · rw [if_pos hcond] at h
          cases h
          exact ⟨[item.id], rfl⟩
        · rw [if_neg hcond] at h
          obtain ⟨s, hs⟩ := ih (i + 1) _ _ _ _ h
          exact ⟨[item.id] ++ s, by rw [hs, List.append_assoc]⟩

/-- Loop invariant of the adaptive session: the administered list stays
duplicate-free, gains at most `fuel` entries, and stays in lockstep with the
response list. -/
lemma fluidLoop_invariant (pool : List IRTItem) (ev : IRTItem → Except String Bool)
    (em : String) :
    ∀ (fuel i : ℕ) (ab : ExtractionAbility) (resp : List (IRTItem × Bool)) (adm : List String)
      (res : List (IRTItem × Bool) × List String × ExtractionAbility),
      adm.Nodup → resp.length = adm.length →
      fluidLoop pool ev em fuel i ab resp adm = Except.ok res →
      res.2.1.Nodup ∧ res.2.1.length ≤ adm.length + fuel ∧ res.1.length = res.2.1.length := by
  intro fuel
  induction fuel with
  | zero =>
    intro i ab resp adm res hnd hlen h
    simp only [fluidLoop] at h
    cases h
    exact ⟨hnd, by simp, hlen⟩
  | succ fuel ih =>
    intro i ab resp adm res hnd hlen h
    simp only [fluidLoop] at h
    cases hsel : select_next_item pool ab adm with
    | none =>
      simp only [hsel] at h
      cases h
      refine ⟨hnd, ?_, hlen⟩
      show adm.length ≤ adm.length + (fuel + 1)
      omega
    | some item =>
      simp only [hsel] at h
      have hid : item.id ∉ adm := (select_next_item_mem hsel).2
      cases hev : ev item with
      | error e => simp only [hev] at h; cases h
      | ok c =>
        simp only [hev] at h
        have hnd2 : (adm ++ [item.id]).Nodup := by
          rw [List.nodup_append]
          refine ⟨hnd, List.nodup_singleton _, ?_⟩
          intro a ha hb
          rcases List.mem_singleton.mp hb with rfl
          exact hid ha
        have hlen2 : (resp ++ [(item, c)]).length = (adm ++ [item.id]).length := by
          simp [hlen]
        by_cases hcond :
            (estimate_ability (resp ++ [(item, c)]) em).standard_error < 0.3 ∧ 10 ≤ i
        · rw [if_pos hcond] at h
          cases h
          refine ⟨hnd2, ?_, hlen2⟩
          show (adm ++ [item.id]).length ≤ adm.length + (fuel + 1)
          simp
        · rw [if_neg hcond] at h
          obtain ⟨h1, h2, h3⟩ := ih (i + 1) _ _ _ _ hnd2 hlen2 h
          refine ⟨h1, ?_, h3⟩
          simp only [List.length_append, List.length_singleton] at h2
          omega

/-- When the external oracle never raises, the adaptive loop always returns a
result. -/
lemma fluidLoop_total (pool : List IRTItem) (ev : IRTItem → Except String Bool)
    (em : String) (hev : ∀ it : IRTItem, ∃ b, ev it = Except.ok b) :
    ∀ (fuel i : ℕ) (ab : ExtractionAbility) (resp : List (IRTItem × Bool)) (adm : List String),
      ∃ res, fluidLoop pool ev em fuel i ab resp adm = Except.ok res := by
  intro fuel
  induction fuel with
  | zero =>
    intro i ab resp adm
    exact ⟨(resp, adm, ab), rfl⟩
  | succ fuel ih =>
    intro i ab resp adm
    cases hsel : select_next_item pool ab adm with
    | none =>
      refine ⟨(resp, adm, ab), ?_⟩
      simp only [fluidLoop, hsel]
    | some item =>
      obtain ⟨c, hc⟩ := hev item
      by_cases hcond :
          (estimate_ability (resp ++ [(item, c)]) em).standard_error < 0.3 ∧ 10 ≤ i
      · refine ⟨(resp ++ [(item, c)], adm ++ [item.id],
          estimate_ability (resp ++ [(item, c)]) em), ?_⟩
        simp only [fluidLoop, hsel, hc]
        rw [if_pos hcond]
      · obtain ⟨res, hres⟩ := ih (i + 1) (estimate_ability (resp ++ [(item, c)]) em)
          (resp ++ [(item, c)]) (adm ++ [item.id])
        refine ⟨res, ?_⟩
        simp only [fluidLoop, hsel, hc]
        rw [if_neg hcond]
        exact hres

lemma prob_at_zero_zero_one : probability_correct 0 0 1 = 1 / 2 :=
  probability_correct_of_zero_exponent (by ring)

lemma info_itemA : itemInformation 0 itemA = 1 / 4 := by
  unfold itemInformation
  have hp : probability_correct 0 itemA.difficulty itemA.discrimination = 1 / 2 := by
    apply probability_correct_of_zero_exponent
    simp [itemA]
  rw [hp]
  simp [itemA]
  norm_num

lemma info_itemB : itemInformation 0 itemB = 1 := by
  unfold itemInformation
  have hp : probability_correct 0 itemB.difficulty itemB.discrimination = 1 / 2 := by
    apply probability_correct_of_zero_exponent
    simp [itemB]
  rw [hp]
  simp [itemB]
  norm_num

lemma info_itemC : itemInformation 0 itemC = 0 := by
  unfold itemInformation
  simp [itemC]

lemma info_itemD : itemInformation 0 itemD = 1 := by
  unfold itemInformation
  have hp : probability_correct 0 itemD.difficulty itemD.discrimination = 1 / 2 := by
    apply probability_correct_of_zero_exponent
    simp [itemD]
  rw [hp]
  simp [itemD]
  norm_num

lemma select_single (ab : ExtractionAbility) :
    select_next_item [itemA] ab [] = some itemA := by
  unfold select_next_item
  have hf : List.filter (fun i => decide (i.id ∉ ([] : List String))) [itemA] = [itemA] := by
    simp
  rw [hf]
  rfl

lemma select_AB (ab : ExtractionAbility) (hth : ab.theta = 0) :
    select_next_item [itemA, itemB] ab [] = some itemB := by
  unfold select_next_item
  have hf : List.filter (fun i => decide (i.id ∉ ([] : List String))) [itemA, itemB] =
      [itemA, itemB] := by simp
  rw [hf]
  show some (maxInfoFold (itemInformation ab.theta) itemA [itemB]) = some itemB
  unfold maxInfoFold
  rw [List.foldl_cons, List.foldl_nil, hth, if_pos]
  rw [info_itemA, info_itemB]
  norm_num

lemma select_CD (ab : ExtractionAbility) (hth : ab.theta = 0) :
    select_next_item [itemC, itemD] ab [] = some itemD := by
  unfold select_next_item
  have hf : List.filter (fun i => decide (i.id ∉ ([] : List String))) [itemC, itemD] =
      [itemC, itemD] := by simp
  rw [hf]
  show some (maxInfoFold (itemInformation ab.theta) itemC [itemD]) = some itemD
  unfold maxInfoFold
  rw [List.foldl_cons, List.foldl_nil, hth, if_pos]
  rw [info_itemC, info_itemD]
  norm_num

/-- One-step evaluation of the adaptive loop on the single-item pool. -/
lemma singleLoopEq (em : String) (c : Bool) (ab : ExtractionAbility) :
    fluidLoop [itemA] (fun _ => Except.ok c) em 1 0 ab [] [] =
      Except.ok ([(itemA, c)], [itemA.id], estimate_ability [(itemA, c)] em) := by
  simp only [fluidLoop, select_single]
  rw [if_neg]
  · rfl
  · rintro ⟨-, h10⟩
    omega

/-- One-step evaluation of `fluid_benchmarking` on the single-item pool with
`n_max = 1` and an always-correct oracle. -/
lemma runSingleEq (m em : String) (start : ℝ) :
    fluid_benchmarking [itemA] (fun _ => Except.ok true) m start 1 em =
      Except.ok
        { method := m
          final_ability := (estimate_ability [(itemA, true)] em).theta
          standard_error := (estimate_ability [(itemA, true)] em).standard_error
          items_administered := 1
          items_correct := 1
          accuracy := ((1 : ℕ) : ℝ) / ((1 : ℕ) : ℝ)
          administered_items := [itemA.id]
          ability_estimate := estimate_ability [(itemA, true)] em } := by
  unfold fluid_benchmarking
  rw [singleLoopEq em true (initAbility m start)]
  rfl

/-- One-step evaluation of the adaptive loop on the two-item pool
`[itemC, itemD]` starting at theta 0: the information maximiser `itemD` is
administered first. -/
lemma pairLoopEq (em : String) :
    fluidLoop [itemC, itemD] (fun _ => Except.ok true) em 1 0 (initAbility "kg" 0) [] [] =
      Except.ok ([(itemD, true)], [itemD.id], estimate_ability [(itemD, true)] em) := by
  simp only [fluidLoop, select_CD (initAbility "kg" 0) rfl]
  rw [if_neg]
  · rfl
  · rintro ⟨-, h10⟩
    omega

lemma fisher_zeroDisc (theta : ℝ) (c : Bool) :
    fisherInfo theta [(zeroDiscItem, c)] = 0 := by
  simp [fisherInfo, zeroDiscItem]

lemma estimate_zeroDisc_SE (c : Bool) (m : String) :
    (estimate_ability [(zeroDiscItem, c)] m).standard_error = 1 := by
  show fluidStandardError (nrLoop m [(zeroDiscItem, c)] 20 0) [(zeroDiscItem, c)] = 1
  unfold fluidStandardError
  rw [fisher_zeroDisc]
  norm_num

/-- Membership characterisation of the mislabel-detector output. -/
lemma mem_identify (pool : List IRTItem) (abilities : List (String × ExtractionAbility))
    (ram : List (String × List (IRTItem × Bool))) (threshold : ℝ) (x : IRTItem) :
    x ∈ identify_mislabeled_items pool abilities ram threshold ↔
      ∃ item ∈ pool, ∃ p ps, itemResponses ram abilities item.id = p :: ps ∧
        threshold < discrepancyOf item (p :: ps) ∧
        x = { item with mislabeled_probability := discrepancyOf item (p :: ps) } := by
  unfold identify_mislabeled_items
  rw [List.Perm.mem_iff (List.perm_insertionSort _ _), List.mem_filterMap]
  constructor
  · rintro ⟨item, hmem, hf⟩
    revert hf
    cases hr : itemResponses ram abilities item.id with
    | nil =>
      intro hf
      simp only [hr] at hf
      exact Option.noConfusion hf
    | cons p ps =>
      intro hf
      simp only [hr] at hf
      by_cases ht : threshold < discrepancyOf item (p :: ps)
      · rw [if_pos ht] at hf
        exact ⟨item, hmem, p, ps, hr, ht, (Option.some.injEq _ _ ▸ hf).symm⟩
      · rw [if_neg ht] at hf
        cases hf
  · rintro ⟨item, hmem, p, ps, hr, ht, rfl⟩
    refine ⟨item, hmem, ?_⟩
    simp only [hr]
    rw [if_pos ht]

end FluidEval

namespace BenchIRT

open FluidEval

lemma bench_prob_bounds (θ b a : ℝ) :
    0 ≤ bench_probability_correct θ b a ∧ bench_probability_correct θ b a ≤ 1 := by
  unfold bench_probability_correct pyexp
  by_cases h1 : EXP_OVERFLOW < -(a * (θ - b))
  · simp only [if_pos h1]
    split_ifs <;> norm_num
  · simp only [if_neg h1]
    by_cases h2 : -(a * (θ - b)) < EXP_UNDERFLOW
    · simp only [if_pos h2]
      norm_num
    · simp only [if_neg h2]
      have he := Real.exp_pos (-(a * (θ - b)))
      constructor
      · positivity
      · rw [div_le_one (by linarith)]
        linarith

lemma benchHessian_eq (responses : List (BenchItem × Bool)) (ability : ℝ) :
    benchHessian responses ability = -benchFisher responses ability - 1 := by
  unfold benchHessian benchFisher
  rw [sum_map_neg (fun r : BenchItem × Bool =>
    r.1.discrimination * r.1.discrimination *
      bench_probability_correct ability r.1.difficulty r.1.discrimination *
      (1 - bench_probability_correct ability r.1.difficulty r.1.discrimination))]
  ring

lemma benchFisher_nonneg (responses : List (BenchItem × Bool)) (ability : ℝ) :
    0 ≤ benchFisher responses ability := by
  refine List.sum_nonneg ?_
  intro x hx
  rw [List.mem_map] at hx
  obtain ⟨r, -, rfl⟩ := hx
  obtain ⟨h0, h1⟩ := bench_prob_bounds ability r.1.difficulty r.1.discrimination
  have ha : (0:ℝ) ≤ r.1.discrimination * r.1.discrimination := mul_self_nonneg _
  have : (0:ℝ) ≤ 1 - bench_probability_correct ability r.1.difficulty r.1.discrimination := by
    linarith
  exact mul_nonneg (mul_nonneg ha h0) this

lemma benchLoop_zero (responses : List (BenchItem × Bool)) (a h0 : ℝ) :
    benchLoop responses 0 a h0 = (a, h0) := rfl

lemma benchLoop_succ (responses : List (BenchItem × Bool)) (n : ℕ) (a h0 : ℝ) :
    benchLoop responses (n + 1) a h0 =
      (if benchHessian responses a ≠ 0 then
        if |(-benchGradient responses a / benchHessian responses a)| < 0.01 then
          (a + -benchGradient responses a / benchHessian responses a, benchHessian responses a)
        else
          benchLoop responses n (a + -benchGradient responses a / benchHessian responses a)
            (benchHessian responses a)
      else benchLoop responses n a (benchHessian responses a)) := rfl

/-- The hessian threaded out of the benchmark Newton loop is always the
hessian computed at some ability value, never the initial placeholder,
whenever at least one iteration runs. -/
lemma benchLoop_last_hessian (responses : List (BenchItem × Bool)) :
    ∀ (fuel : ℕ) (a h0 : ℝ),
      ∃ θ, (benchLoop responses (fuel + 1) a h0).2 = benchHessian responses θ := by
  intro fuel
  induction fuel with
  | zero =>
    intro a h0
    refine ⟨a, ?_⟩
    rw [benchLoop_succ]
    split_ifs <;> rfl
  | succ fuel ih =>
    intro a h0
    rw [benchLoop_succ]
    split_ifs with h1 h2
    · exact ⟨a, rfl⟩
    · exact ih _ _
    · exact ih _ _

end BenchIRT

namespace FluidEval

lemma estimate_theta_def (r0 : IRTItem × Bool) (rest : List (IRTItem × Bool)) (m : String) :
    (estimate_ability (r0 :: rest) m).theta = nrLoop m (r0 :: rest) 20 0 := rfl

lemma estimate_SE_def (r0 : IRTItem × Bool) (rest : List (IRTItem × Bool)) (m : String) :
    (estimate_ability (r0 :: rest) m).standard_error =
      fluidStandardError ((estimate_ability (r0 :: rest) m).theta) (r0 :: rest) := rfl

lemma nrLoop_succ (m : String) (r : List (IRTItem × Bool)) (n : ℕ) (theta : ℝ) :
    nrLoop m r (n + 1) theta =
      (if 1e-6 < |hessianAt m r theta| then
        if |theta - gradientAt m r theta / hessianAt m r theta - theta| < 1e-4 then
          theta - gradientAt m r theta / hessianAt m r theta
        else nrLoop m r n (theta - gradientAt m r theta / hessianAt m r theta)
      else nrLoop m r n theta) := rfl

lemma select_eq_some_fold {pool : List IRTItem} {ab : ExtractionAbility}
    {adm : List String} {it : IRTItem} (h : select_next_item pool ab adm = some it) :
    ∃ x t, pool.filter (fun i => decide (i.id ∉ adm)) = x :: t ∧
      it = maxInfoFold (itemInformation ab.theta) x t := by
  unfold select_next_item at h
  revert h
  cases hf : pool.filter (fun i => decide (i.id ∉ adm)) with
  | nil => intro h; exact Option.noConfusion h
  | cons x t =>
    intro h
    have h2 : some (maxInfoFold (itemInformation ab.theta) x t) = some it := h
    exact ⟨x, t, rfl, (Option.some_inj.mp h2).symm⟩

lemma select_eq_none_iff {pool : List IRTItem} {ab : ExtractionAbility} {adm : List String} :
    select_next_item pool ab adm = none ↔
      pool.filter (fun i => decide (i.id ∉ adm)) = [] := by
  unfold select_next_item
  cases hf : pool.filter (fun i => decide (i.id ∉ adm)) with
  | nil => simp
  | cons x t =>
    constructor
    · intro h; exact Option.noConfusion h
    · intro h; exact List.noConfusion h

lemma packageResult_accuracy (m : String)
    (res : List (IRTItem × Bool) × List String × ExtractionAbility)
    (hlen : res.1.length = res.2.1.length) :
    (0 < (packageResult m res).items_administered →
      (packageResult m res).accuracy =
        ((packageResult m res).items_correct : ℝ) /
          ((packageResult m res).items_administered : ℝ)) ∧
    ((packageResult m res).items_administered = 0 → (packageResult m res).accuracy = 0) := by
  obtain ⟨resp, adm, ab⟩ := res
  simp only at hlen
  cases resp with
  | nil =>
    constructor
    · intro hpos
      have hp : 0 < adm.length := hpos
      simp at hlen
      omega
    · intro h
      rfl
  | cons p ps =>
    constructor
    · intro hpos
      show (((p :: ps).filter (fun x => x.2)).length : ℝ) / ((p :: ps).length : ℝ) =
        (((p :: ps).filter (fun x => x.2)).length : ℝ) / (adm.length : ℝ)
      rw [hlen]
    · intro h0
      have h0' : adm.length = 0 := h0
      simp only [List.length_cons] at hlen
      omega

end FluidEval

namespace FluidEval

/-- C1: the claim states that `probability_correct` clamps the exponent
before calling `exp`, never raises and always returns a value strictly
between 0 and 1.  What actually holds: within the representable exponent
range the value is strictly between 0 and 1, but there is no clamp — the
fluid version raises `OverflowError` above the overflow threshold and
returns exactly `1.0` below the underflow threshold, and the benchmark
version catches the overflow and returns exactly `0.0` or `1.0`. -/
theorem C1_probability_bounds (theta b a : ℝ) :
    (EXP_UNDERFLOW ≤ -a * (theta - b) → -a * (theta - b) ≤ EXP_OVERFLOW →
      probability_correct_checked theta b a = Except.ok (probability_correct theta b a) ∧
      0 < probability_correct theta b a ∧ probability_correct theta b a < 1) ∧
    (EXP_OVERFLOW < -a * (theta - b) →
      probability_correct_checked theta b a = Except.error ()) ∧
    (-a * (theta - b) < EXP_UNDERFLOW →
      probability_correct_checked theta b a = Except.ok 1) ∧
    (EXP_OVERFLOW < -(a * (theta - b)) →
      bench_probability_correct theta b a = if b < theta then 1 else 0) ∧
    (-(a * (theta - b)) < EXP_UNDERFLOW → bench_probability_correct theta b a = 1) := by
  have hUO : EXP_UNDERFLOW < EXP_OVERFLOW := by norm_num [EXP_UNDERFLOW, EXP_OVERFLOW]
  refine ⟨?_, ?_, ?_, ?_, ?_⟩
  · intro h1 h2
    unfold probability_correct_checked pyexp
    rw [if_neg (not_lt.mpr h2), if_neg (not_lt.mpr h1)]
    exact ⟨rfl, probability_correct_pos theta b a, probability_correct_lt_one theta b a⟩
  · intro h
    unfold probability_correct_checked pyexp
    rw [if_pos h]
    rfl
  · intro h
    unfold probability_correct_checked pyexp
    rw [if_neg (not_lt.mpr (h.trans hUO).le), if_pos h]
    show Except.ok (1 / (1 + 0) : ℝ) = Except.ok 1
    norm_num
  · intro h
    unfold bench_probability_correct pyexp
    rw [if_pos h]
  · intro h
    unfold bench_probability_correct pyexp
    rw [if_neg (not_lt.mpr (h.trans hUO).le), if_pos h]
    show (1 / (1 + 0) : ℝ) = 1
    norm_num

/-- C1 witness: at theta = b = 0, a = 1 the exponent is 0, well inside the
representable range, and the probability is strictly between 0 and 1. -/
theorem C1_witness :
    probability_correct_checked 0 0 1 = Except.ok (probability_correct 0 0 1) ∧
    0 < probability_correct 0 0 1 ∧ probability_correct 0 0 1 < 1 :=
  (C1_probability_bounds 0 0 1).1 (by norm_num [EXP_UNDERFLOW])
    (by norm_num [EXP_OVERFLOW])

/-- C1 counterexample: at ability 0, difficulty 1000, discrimination 1 the
exponent is 1000, above the `math.exp` overflow threshold, so the fluid
`probability_correct` raises `OverflowError` instead of returning a value in
(0,1) — the claimed clamping does not exist. -/
theorem C1_counterexample : probability_correct_checked 0 1000 1 = Except.error () := by
  unfold probability_correct_checked pyexp
  rw [if_pos (by norm_num [EXP_OVERFLOW])]
  rfl

end FluidEval

namespace FluidEval

/-- C2: the claim states `standardError = 1/sqrt(Fisher information)` and,
whenever the Fisher information is `<= 0`, `standardError = +infinity`.
What actually holds: the Fisher information is always nonnegative;
`FluidEvaluator.estimate_ability` returns `1/sqrt(Fisher)` when it is
positive but returns the finite prior value `1.0` — not infinity — when it
is zero; the benchmark `estimate_ability` is the variant with an infinity
branch, but its information additionally contains the prior term `+1`, so it
is always at least 1 and the infinity branch is unreachable.  No branch
yields NaN or an exception. -/
theorem C2_standard_error :
    (∀ (responses : List (IRTItem × Bool)) (method : String),
      0 ≤ fisherInfo ((estimate_ability responses method).theta) responses ∧
      (0 < fisherInfo ((estimate_ability responses method).theta) responses →
        (estimate_ability responses method).standard_error =
          1 / Real.sqrt (fisherInfo ((estimate_ability responses method).theta) responses)) ∧
      (fisherInfo ((estimate_ability responses method).theta) responses ≤ 0 →
        (estimate_ability responses method).standard_error = 1)) ∧
    (∀ responses : List (BenchIRT.BenchItem × Bool), ∃ thetaPrev,
      (BenchIRT.benchEstimate responses).2 =
        BenchIRT.SEValue.fin
          (1 / Real.sqrt (BenchIRT.benchFisher responses thetaPrev + 1)) ∧
      (BenchIRT.benchEstimate responses).2 ≠ BenchIRT.SEValue.infinite) := by
  constructor
  · intro responses method
    cases responses with
    | nil =>
      refine ⟨le_refl 0, ?_, ?_⟩
      · intro h
        exact absurd h (by simp [fisherInfo, estimate_ability])
      · intro _
        rfl
    | cons r0 rest =>
      refine ⟨fisherInfo_nonneg _ _, ?_, ?_⟩
      · intro h
        rw [estimate_SE_def]
        unfold fluidStandardError
        rw [if_pos h]
      · intro h
        rw [estimate_SE_def]
        unfold fluidStandardError
        rw [if_neg (not_lt.mpr h)]
  · intro responses
    obtain ⟨thetaPrev, hP⟩ := BenchIRT.benchLoop_last_hessian responses 49 0 0
    have hP50 : (BenchIRT.benchLoop responses 50 0 0).2 =
        BenchIRT.benchHessian responses thetaPrev := hP
    have hinfo : -(BenchIRT.benchLoop responses 50 0 0).2 =
        BenchIRT.benchFisher responses thetaPrev + 1 := by
      rw [hP50, BenchIRT.benchHessian_eq]
      ring
    have hpos : 0 < -(BenchIRT.benchLoop responses 50 0 0).2 := by
      rw [hinfo]
      have := BenchIRT.benchFisher_nonneg responses thetaPrev
      linarith
    have hdef : (BenchIRT.benchEstimate responses).2 =
        (if 0 < -(BenchIRT.benchLoop responses 50 0 0).2 then
          BenchIRT.SEValue.fin (1 / Real.sqrt (-(BenchIRT.benchLoop responses 50 0 0).2))
        else BenchIRT.SEValue.infinite) := rfl
    refine ⟨thetaPrev, ?_, ?_⟩
    · rw [hdef, if_pos hpos, hinfo]
    · rw [hdef, if_pos hpos]
      intro h
      exact BenchIRT.SEValue.noConfusion h

/-- C2 witness: one fluid response with discrimination 0 makes the Fisher
information exactly 0, and `estimate_ability` then returns the finite
standard error 1. -/
theorem C2_witness :
    fisherInfo ((estimate_ability [(zeroDiscItem, true)] "map").theta) [(zeroDiscItem, true)] ≤ 0 ∧
    (estimate_ability [(zeroDiscItem, true)] "map").standard_error = 1 := by
  have hf : fisherInfo ((estimate_ability [(zeroDiscItem, true)] "map").theta)
      [(zeroDiscItem, true)] = 0 := fisher_zeroDisc _ _
  exact ⟨le_of_eq hf,
    (C2_standard_error.1 [(zeroDiscItem, true)] "map").2.2 (le_of_eq hf)⟩

/-- C2 counterexample: for the single zero-discrimination response the
Fisher information is 0, so the claim demands a standard error of
+infinity, yet the code returns the finite value 1.0. -/
theorem C2_counterexample :
    fisherInfo ((estimate_ability [(zeroDiscItem, true)] "map").theta) [(zeroDiscItem, true)] ≤ 0 ∧
    ((estimate_ability [(zeroDiscItem, true)] "map").standard_error : EReal) ≠
      claimedStandardError
        (fisherInfo ((estimate_ability [(zeroDiscItem, true)] "map").theta)
          [(zeroDiscItem, true)]) := by
  have hf : fisherInfo ((estimate_ability [(zeroDiscItem, true)] "map").theta)
      [(zeroDiscItem, true)] = 0 := fisher_zeroDisc _ _
  refine ⟨le_of_eq hf, ?_⟩
  rw [estimate_zeroDisc_SE, hf]
  unfold claimedStandardError
  rw [if_pos (le_refl 0)]
  exact EReal.coe_ne_top 1

end FluidEval

namespace FluidEval

/-- C3: for every response list and mode, `estimate_ability` performs
Newton-Raphson from theta = 0 with at most 20 iterations; per iteration the
gradient is `sum of a_i * (correct_i - p_i)` (minus theta in map mode), the
hessian is `-(sum of a_i^2 * p_i * (1 - p_i))` (minus 1 in map mode), the
update `theta <- theta - gradient/hessian` is skipped when
`|hessian| < 1e-6`, and the loop stops when `|delta theta| < 1e-4`
(keeping the updated value).  Stated via the word-for-word spec formulas
`specGradient`/`specHessian` and the step behaviour of `nrLoop`. -/
theorem C3_newton_raphson (method : String) (responses : List (IRTItem × Bool)) :
    (∀ theta : ℝ, gradientAt method responses theta = specGradient method responses theta) ∧
    (∀ theta : ℝ, hessianAt method responses theta = specHessian method responses theta) ∧
    (∀ (theta : ℝ) (n : ℕ), |hessianAt method responses theta| < 1e-6 →
      nrLoop method responses (n + 1) theta = nrLoop method responses n theta) ∧
    (∀ (theta : ℝ) (n : ℕ), 1e-6 < |hessianAt method responses theta| →
      |theta - gradientAt method responses theta / hessianAt method responses theta - theta|
          < 1e-4 →
      nrLoop method responses (n + 1) theta =
        theta - gradientAt method responses theta / hessianAt method responses theta) ∧
    (∀ (theta : ℝ) (n : ℕ), 1e-6 < |hessianAt method responses theta| →
      ¬(|theta - gradientAt method responses theta / hessianAt method responses theta - theta|
          < 1e-4) →
      nrLoop method responses (n + 1) theta =
        nrLoop method responses n
          (theta - gradientAt method responses theta / hessianAt method responses theta)) ∧
    (responses ≠ [] →
      (estimate_ability responses method).theta = nrLoop method responses 20 0) := by
  refine ⟨?_, ?_, ?_, ?_, ?_, ?_⟩
  · intro theta
    unfold gradientAt specGradient
    rw [gradientSum_eq_sum]
  · intro theta
    unfold hessianAt specHessian
    rw [hessianSum_eq_neg_fisher]
  · intro theta n h
    rw [nrLoop_succ, if_neg (not_lt.mpr h.le)]
  · intro theta n h1 h2
    rw [nrLoop_succ, if_pos h1, if_pos h2]
  · intro theta n h1 h2
    rw [nrLoop_succ, if_pos h1, if_neg h2]
  · intro hne
    cases responses with
    | nil => exact absurd rfl hne
    | cons r0 rest => rfl

/-- C3 witness: for the map mode and the single zero-discrimination correct
response at theta 0, the gradient is 0, the hessian is -1 (prior term only),
the update is applied (|hessian| > 1e-6) and converges at once
(|delta| = 0 < 1e-4), giving theta 0. -/
theorem C3_witness :
    gradientAt "map" [(zeroDiscItem, true)] 0 = 0 ∧
    hessianAt "map" [(zeroDiscItem, true)] 0 = -1 ∧
    nrLoop "map" [(zeroDiscItem, true)] 1 0 = 0 := by
  obtain ⟨h1, h2, h3, h4, h5, h6⟩ := C3_newton_raphson "map" [(zeroDiscItem, true)]
  have hg : gradientAt "map" [(zeroDiscItem, true)] 0 = 0 := by
    rw [h1 0]
    unfold specGradient
    simp [zeroDiscItem]
  have hh : hessianAt "map" [(zeroDiscItem, true)] 0 = -1 := by
    rw [h2 0]
    unfold specHessian
    rw [fisher_zeroDisc]
    simp
  have habs : (1e-6 : ℝ) < |hessianAt "map" [(zeroDiscItem, true)] 0| := by
    rw [hh]
    rw [abs_neg, abs_one]
    norm_num
  have hconv : |(0:ℝ) - gradientAt "map" [(zeroDiscItem, true)] 0 /
      hessianAt "map" [(zeroDiscItem, true)] 0 - 0| < 1e-4 := by
    rw [hg, hh]
    norm_num
  have hstep : nrLoop "map" [(zeroDiscItem, true)] 1 0 =
      0 - gradientAt "map" [(zeroDiscItem, true)] 0 /
        hessianAt "map" [(zeroDiscItem, true)] 0 := h4 0 0 habs hconv
  refine ⟨hg, hh, ?_⟩
  rw [hstep, hg, hh]
  norm_num

end FluidEval

namespace FluidEval

/-- C4: the claim states that a raised/timed-out `evaluate()` is caught, the
item skipped, and the session continues.  What actually holds: the loop body
wraps `evaluate` in no handler, so a session completes exactly when the
oracle never raises, and an exception raised on a selected item propagates
out of `fluid_benchmarking` unchanged, aborting the session. -/
theorem C4_evaluate_failure :
    (∀ (pool : List IRTItem) (ev : IRTItem → Except String Bool) (m em : String)
       (start : ℝ) (n_max : ℕ),
      (∀ it : IRTItem, ∃ b, ev it = Except.ok b) →
      ∃ r, fluid_benchmarking pool ev m start n_max em = Except.ok r) ∧
    (∀ (pool : List IRTItem) (ev : IRTItem → Except String Bool) (m em : String)
       (start : ℝ) (n_max : ℕ) (it : IRTItem) (e : String),
      0 < n_max →
      select_next_item pool (initAbility m start) [] = some it →
      ev it = Except.error e →
      fluid_benchmarking pool ev m start n_max em = Except.error e) := by
  constructor
  · intro pool ev m em start n_max hev
    obtain ⟨res, hres⟩ := fluidLoop_total pool ev em hev n_max 0 (initAbility m start) [] []
    refine ⟨packageResult m res, ?_⟩
    unfold fluid_benchmarking
    rw [hres]
    rfl
  · intro pool ev m em start n_max it e hn hsel hev
    cases n_max with
    | zero => omega
    | succ k =>
      have hloop : fluidLoop pool ev em (k + 1) 0 (initAbility m start) [] [] =
          Except.error e := by
        simp only [fluidLoop, hsel, hev]
      unfold fluid_benchmarking
      rw [hloop]
      rfl

/-- C4 witness: with an oracle that never raises the session completes, and
with an oracle that raises on the first selected item the session aborts
with that exception. -/
theorem C4_witness :
    (∃ r, fluid_benchmarking [itemA] (fun _ => Except.ok true) "kg" 0 1 "map" =
      Except.ok r) ∧
    fluid_benchmarking [itemA] (fun _ => Except.error "timeout") "kg" 0 1 "map" =
      Except.error "timeout" := by
  constructor
  · exact C4_evaluate_failure.1 [itemA] _ "kg" "map" 0 1 (fun _ => ⟨true, rfl⟩)
  · exact C4_evaluate_failure.2 [itemA] _ "kg" "map" 0 1 itemA "timeout"
      (by norm_num) (select_single _) rfl

/-- C4 counterexample: a single failing `evaluate` call aborts the whole
session — `fluid_benchmarking` propagates the exception instead of skipping
the item and continuing as claimed. -/
theorem C4_counterexample :
    fluid_benchmarking [itemA] (fun _ => Except.error "boom") "kg" 0 5 "map" =
      Except.error "boom" := by
  have hloop : fluidLoop [itemA] (fun _ => Except.error "boom") "map" 5 0
      (initAbility "kg" 0) [] [] = Except.error "boom" := by
    simp only [fluidLoop, select_single]
  unfold fluid_benchmarking
  rw [hloop]
  rfl

end FluidEval

namespace FluidEval

/-- C5: `select_next_item` returns `None` exactly when every pool item is
already administered; otherwise it returns a not-yet-administered pool item
whose Fisher information at the current theta is maximal among the available
items, and among the available items every one listed before it (original
pool order) has strictly smaller information — i.e. ties break by pool
order, as for the head of the stable descending Python sort. -/
theorem C5_selector (pool : List IRTItem) (ab : ExtractionAbility) (adm : List String) :
    (select_next_item pool ab adm = none ↔ ∀ it ∈ pool, it.id ∈ adm) ∧
    (∀ it : IRTItem, select_next_item pool ab adm = some it →
      it ∈ pool ∧ it.id ∉ adm ∧
      (∀ j ∈ pool, j.id ∉ adm →
        itemInformation ab.theta j ≤ itemInformation ab.theta it) ∧
      (∃ l1 l2, pool.filter (fun i => decide (i.id ∉ adm)) = l1 ++ it :: l2 ∧
        ∀ j ∈ l1, itemInformation ab.theta j < itemInformation ab.theta it)) := by
  constructor
  · rw [select_eq_none_iff, List.filter_eq_nil_iff]
    simp
  · intro it hsel
    obtain ⟨hpool, hadm⟩ := select_next_item_mem hsel
    obtain ⟨x, t, hf, hit⟩ := select_eq_some_fold hsel
    refine ⟨hpool, hadm, ?_, ?_⟩
    · intro j hj hja
      have hjf : j ∈ pool.filter (fun i => decide (i.id ∉ adm)) :=
        mem_availableFilter.mpr ⟨hj, hja⟩
      rw [hf] at hjf
      rw [hit]
      exact maxInfoFold_is_max (itemInformation ab.theta) x t j hjf
    · obtain ⟨l1, l2, hdec, hlt, -⟩ := maxInfoFold_decomp (itemInformation ab.theta) t x
      refine ⟨l1, l2, ?_, ?_⟩
      · rw [hf, hdec, hit]
      · intro j hj
        rw [hit]
        exact hlt j hj

/-- C5 witness: on the pool `[itemA, itemB]` at theta 0 with nothing
administered, the selector returns `itemB`, the unique information
maximiser, and `itemB` is an unadministered pool member dominating
`itemA`. -/
theorem C5_witness :
    select_next_item [itemA, itemB] abilityZero [] = some itemB ∧
    itemInformation abilityZero.theta itemA ≤ itemInformation abilityZero.theta itemB ∧
    itemB ∈ [itemA, itemB] ∧ itemB.id ∉ ([] : List String) := by
  have hsel : select_next_item [itemA, itemB] abilityZero [] = some itemB :=
    select_AB abilityZero rfl
  have h := (C5_selector [itemA, itemB] abilityZero []).2 itemB hsel
  exact ⟨hsel, h.2.2.1 itemA (by simp) (by simp), h.1, h.2.1⟩

end FluidEval

namespace FluidEval

/-- C6: the claim states that the first few (about 3) selections are spread
across the difficulty range rather than chosen by maximum Fisher
information.  What actually holds for `FluidEvaluator`: there is no
warm-start — every selection, including the very first, is made by
`select_next_item`, i.e. by maximum Fisher information at the current
ability; in particular the first administered item of any successful run is
the information maximiser at the start ability.  (The separate
`OCRIRTBenchmark.run_benchmark` loop does spread its first three picks, but
the specified session runner is `FluidEvaluator.fluid_benchmarking`.) -/
theorem C6_no_warm_start (pool : List IRTItem) (ev : IRTItem → Except String Bool)
    (m em : String) (start : ℝ) (n_max : ℕ) (it : IRTItem) (c : Bool) (r : FluidResult) :
    0 < n_max →
    select_next_item pool (initAbility m start) [] = some it →
    ev it = Except.ok c →
    fluid_benchmarking pool ev m start n_max em = Except.ok r →
    r.administered_items.head? = some it.id := by
  intro hn hsel hev hrun
  cases n_max with
  | zero => omega
  | succ k =>
    unfold fluid_benchmarking at hrun
    cases hloop : fluidLoop pool ev em (k + 1) 0 (initAbility m start) [] [] with
    | error e =>
      rw [hloop] at hrun
      simp [Except.map] at hrun
    | ok res =>
      rw [hloop] at hrun
      simp only [Except.map] at hrun
      cases hrun
      simp only [fluidLoop, hsel, hev] at hloop
      by_cases hcond :
          (estimate_ability ([] ++ [(it, c)]) em).standard_error < 0.3 ∧ 10 ≤ 0
      · obtain ⟨-, h10⟩ := hcond
        omega
      · rw [if_neg hcond] at hloop
        obtain ⟨s, hs⟩ := fluidLoop_admin_extends pool ev em k 1 _ _ _ _ hloop
        show res.2.1.head? = some it.id
        rw [hs]
        rfl

/-- C6 witness: on the single-item pool the first (and only) administered
item of the run is the selected information maximiser. -/
theorem C6_witness :
    ∃ r, fluid_benchmarking [itemA] (fun _ => Except.ok true) "kg" 0 1 "map" =
      Except.ok r ∧ r.administered_items.head? = some itemA.id := by
  refine ⟨_, runSingleEq "kg" "map" 0, ?_⟩
  exact C6_no_warm_start [itemA] _ "kg" "map" 0 1 itemA true _ (by norm_num)
    (select_single _) rfl (runSingleEq "kg" "map" 0)

/-- C6 counterexample: in a concrete session over `[itemC, itemD]`
(difficulties -2 and 0) the very first selection is `itemD`, the strict
Fisher-information maximiser at theta 0 — not a pick spread across the
difficulty range: the warm-start policy described by the claim does not
exist in `FluidEvaluator`. -/
theorem C6_counterexample :
    Except.map (fun r : FluidResult => r.administered_items)
      (fluid_benchmarking [itemC, itemD] (fun _ => Except.ok true) "kg" 0 1 "map") =
      Except.ok [itemD.id] ∧
    itemInformation 0 itemC < itemInformation 0 itemD ∧
    select_next_item [itemC, itemD] (initAbility "kg" 0) [] = some itemD := by
  refine ⟨?_, ?_, select_CD _ rfl⟩
  · unfold fluid_benchmarking
    rw [pairLoopEq "map"]
    rfl
  · rw [info_itemC, info_itemD]
    norm_num

end FluidEval

namespace FluidEval

/-- C7: the claim states the session result contains
`accuracy = correct/administered` and a 95 percent confidence-interval field.
What actually holds: the accuracy equation is true (responses and
administered ids stay in lockstep, so `correct/len(responses)` equals
`correct/administered`), but the result dict of
`FluidEvaluator.fluid_benchmarking` has no confidence-interval entry at all
(see `fluidResultKeys`); only the separate OCR benchmark result carries
one. -/
theorem C7_result_record (pool : List IRTItem) (ev : IRTItem → Except String Bool)
    (m em : String) (start : ℝ) (n_max : ℕ) (r : FluidResult) :
    fluid_benchmarking pool ev m start n_max em = Except.ok r →
    (0 < r.items_administered →
      r.accuracy = (r.items_correct : ℝ) / (r.items_administered : ℝ)) ∧
    (r.items_administered = 0 → r.accuracy = 0) := by
  intro hrun
  unfold fluid_benchmarking at hrun
  cases hloop : fluidLoop pool ev em n_max 0 (initAbility m start) [] [] with
  | error e =>
    rw [hloop] at hrun
    simp [Except.map] at hrun
  | ok res =>
    rw [hloop] at hrun
    simp only [Except.map] at hrun
    cases hrun
    obtain ⟨-, -, hlen⟩ := fluidLoop_invariant pool ev em n_max 0 _ _ _ _
      List.nodup_nil rfl hloop
    exact packageResult_accuracy m res hlen

/-- C7 witness: a concrete completed session where the accuracy field equals
correct over administered. -/
theorem C7_witness :
    ∃ r, fluid_benchmarking [itemA] (fun _ => Except.ok true) "kg" 0 1 "map" =
      Except.ok r ∧
      r.accuracy = (r.items_correct : ℝ) / (r.items_administered : ℝ) := by
  refine ⟨_, runSingleEq "kg" "map" 0, ?_⟩
  exact (C7_result_record [itemA] _ "kg" "map" 0 1 _ (runSingleEq "kg" "map" 0)).1
    Nat.one_pos

/-- C7 counterexample: the fluid result dict has no confidence-interval key
under any of its spellings — the confidence interval lives only in the OCR
benchmark result dict. -/
theorem C7_counterexample :
    "confidence_interval" ∉ fluidResultKeys ∧
    "ci_95" ∉ fluidResultKeys ∧
    "confidence_interval" ∈ benchResultKeys := by
  decide

end FluidEval

namespace FluidEval

/-- C8: `identify_mislabeled_items` outputs exactly the pool items that have
at least one response and whose discrepancy
(mean |predicted - actual| over the examinees that attempted them) exceeds
the threshold, each with `mislabeled_probability` set to that discrepancy,
sorted in descending order of discrepancy; items with zero responses never
appear (and the function is total, so they cause no error). -/
theorem C8_mislabel_detector (pool : List IRTItem)
    (abilities : List (String × ExtractionAbility))
    (ram : List (String × List (IRTItem × Bool))) (threshold : ℝ) :
    List.Sorted discGE (identify_mislabeled_items pool abilities ram threshold) ∧
    (∀ x ∈ identify_mislabeled_items pool abilities ram threshold,
      itemResponses ram abilities x.id ≠ [] ∧ threshold < x.mislabeled_probability ∧
      ∃ item ∈ pool,
        x = { item with mislabeled_probability :=
                discrepancyOf item (itemResponses ram abilities item.id) }) ∧
    (∀ item ∈ pool, ∀ (p : ℝ × Bool) (ps : List (ℝ × Bool)),
      itemResponses ram abilities item.id = p :: ps →
      threshold < discrepancyOf item (p :: ps) →
      { item with mislabeled_probability := discrepancyOf item (p :: ps) } ∈
        identify_mislabeled_items pool abilities ram threshold) := by
  refine ⟨?_, ?_, ?_⟩
  · unfold identify_mislabeled_items
    exact List.sorted_insertionSort discGE _
  · intro x hx
    rw [mem_identify] at hx
    obtain ⟨item, hmem, p, ps, hr, ht, rfl⟩ := hx
    refine ⟨?_, ht, item, hmem, ?_⟩
    · show itemResponses ram abilities item.id ≠ []
      rw [hr]
      exact List.cons_ne_nil p ps
    · rw [hr]
  · intro item hmem p ps hr ht
    rw [mem_identify]
    exact ⟨item, hmem, p, ps, hr, ht, rfl⟩

/-- C8 witness: `itemM` has one (incorrect) response at ability 0, giving
discrepancy 1/2 above the threshold 3/10, so its updated copy is flagged;
`itemN` has zero responses and its id matches no collected response. -/
theorem C8_witness :
    { itemM with mislabeled_probability :=
                    discrepancyOf itemM [(abilityZero.theta, false)] } ∈
      identify_mislabeled_items [itemM, itemN] [("kg", abilityZero)]
        [("kg", [(itemM, false)])] (3 / 10) ∧
    itemResponses [("kg", [(itemM, false)])] [("kg", abilityZero)] itemN.id = [] ∧
    discrepancyOf itemM [(abilityZero.theta, false)] = 1 / 2 := by
  have hrM : itemResponses [("kg", [(itemM, false)])] [("kg", abilityZero)] itemM.id =
      [(abilityZero.theta, false)] := by
    simp [itemResponses, getAbility]
  have hd : discrepancyOf itemM [(abilityZero.theta, false)] = 1 / 2 := by
    unfold discrepancyOf
    have hp : probability_correct abilityZero.theta itemM.difficulty itemM.discrimination
        = 1 / 2 := prob_at_zero_zero_one
    simp only [List.map_cons, List.map_nil, List.sum_cons, List.sum_nil,
      List.length_cons, List.length_nil, hp]
    norm_num
  have ht : (3 : ℝ) / 10 < discrepancyOf itemM [(abilityZero.theta, false)] := by
    rw [hd]
    norm_num
  refine ⟨(C8_mislabel_detector [itemM, itemN] [("kg", abilityZero)]
      [("kg", [(itemM, false)])] (3 / 10)).2.2 itemM (by simp)
      (abilityZero.theta, false) [] hrM ht, ?_, hd⟩
  simp [itemResponses, itemM, itemN]

end FluidEval

namespace FluidEval

/-- C9: every successful session run administers at most `n_max` items and
its administered-id list has no duplicates (the invariant is maintained at
every loop step by `fluidLoop_invariant`; the final list witnesses it). -/
theorem C9_session_invariants (pool : List IRTItem) (ev : IRTItem → Except String Bool)
    (m em : String) (start : ℝ) (n_max : ℕ) (r : FluidResult) :
    fluid_benchmarking pool ev m start n_max em = Except.ok r →
    r.administered_items.Nodup ∧ r.administered_items.length ≤ n_max := by
  intro hrun
  unfold fluid_benchmarking at hrun
  cases hloop : fluidLoop pool ev em n_max 0 (initAbility m start) [] [] with
  | error e =>
    rw [hloop] at hrun
    simp [Except.map] at hrun
  | ok res =>
    rw [hloop] at hrun
    simp only [Except.map] at hrun
    cases hrun
    obtain ⟨hnd, hle, -⟩ := fluidLoop_invariant pool ev em n_max 0 _ _ _ _
      List.nodup_nil rfl hloop
    refine ⟨hnd, ?_⟩
    show res.2.1.length ≤ n_max
    simpa using hle

/-- C9 witness: a concrete completed session with `n_max = 1` whose
administered list is duplicate-free and within the cap. -/
theorem C9_witness :
    ∃ r, fluid_benchmarking [itemA] (fun _ => Except.ok true) "kg" 0 1 "map" =
      Except.ok r ∧
      r.administered_items.Nodup ∧ r.administered_items.length ≤ 1 := by
  refine ⟨_, runSingleEq "kg" "map" 0, ?_⟩
  exact C9_session_invariants [itemA] _ "kg" "map" 0 1 _ (runSingleEq "kg" "map" 0)

/-- C10: for a non-empty response list, the `method` field of the returned
`AbilityEstimate` is `responses[0][0].id.split("-")[0]` — the first item id
truncated at its first dash — independent of which estimation method was
requested, and `num_items_tested` is the length of the response list. -/
theorem C10_method_field (r0 : IRTItem × Bool) (rest : List (IRTItem × Bool))
    (m m2 : String) :
    (estimate_ability (r0 :: rest) m).method = (r0.1.id.splitOn "-").headD "" ∧
    (estimate_ability (r0 :: rest) m).num_items_tested = rest.length + 1 ∧
    (estimate_ability (r0 :: rest) m).method = (estimate_ability (r0 :: rest) m2).method := by
  refine ⟨rfl, ?_, rfl⟩
  show (r0 :: rest).length = rest.length + 1
  simp

end FluidEval
